import Mathlib

/-!
Verification of the structured-extraction pipeline in `deepdectoc.py`.

The development shallowly embeds the pure computational core of the script:
  * the text-cleaning expressions applied to detected cell/block text,
  * `table_to_html` (defaultdict-of-dict accumulation, sorted emission),
  * the JSON grid-reconstruction loop in `main` (lines 176-186),
  * `UniversalConverter.to_pdf` (extension dispatch, modelled with an
    explicit effect list for the external converters it invokes),
  * the per-page structuring and document aggregation in `main`.
Python dictionaries are embedded as association lists with
insert-or-update (`dUpsert`) preserving the position of an existing key,
which matches dict semantics for the operations the script performs
(`keys`, `get`, indexing, assignment).
-/

namespace DeepDecToc

/-- Characters of `s.replace("\n", " ")` for a single-character pattern:
every newline becomes a space. -/
def replaceNL (l : List Char) : List Char :=
  l.map fun ch => if ch = '\n' then ' ' else ch

/-- Characters of Python `str.strip()`: drop whitespace from both ends. -/
def stripChars (l : List Char) : List Char :=
  ((l.dropWhile Char.isWhitespace).reverse.dropWhile Char.isWhitespace).reverse

/-- Python `s.strip()`. -/
def pyStrip (s : String) : String := ⟨stripChars s.data⟩

/-- Embeds `cell.text.replace("\n", " ").strip()` — the cleaning used by
`table_to_html` (line 89). -/
def htmlCellText (s : String) : String := ⟨stripChars (replaceNL s.data)⟩

/-- Embeds `cell.text.strip() if cell.text else ""` — the cleaning used by the JSON
grid loop (line 180).  Note: no newline replacement here. -/
def jsonCellText (s : String) : String := if s = "" then "" else pyStrip s

/-- One detected table cell, as exposed by the engine: `row_number`,
`column_number`, `text` (source lines 87-89, 177). -/
structure Cell where
  row_number : Nat
  column_number : Nat
  text : String
deriving DecidableEq

/-- Coordinate of a cell, for stating duplicate-coordinate properties. -/
def coordOf (cell : Cell) : Nat × Nat := (cell.row_number, cell.column_number)

/-- All cells of the list have pairwise distinct (row, column) coordinates. -/
def DistinctCoords (cells : List Cell) : Prop := (cells.map coordOf).Nodup

instance (cells : List Cell) : Decidable (DistinctCoords cells) :=
  inferInstanceAs (Decidable ((cells.map coordOf).Nodup))

/-- The last cell of `cells` targeting coordinate `(r, c)` — the one whose
write survives, since both reconstruction loops assign in iteration order. -/
def lastWriteCell (cells : List Cell) (r c : Nat) : Option Cell :=
  (cells.filter fun x => x.row_number == r && x.column_number == c).getLast?

/-! ### Embedding of Python dictionaries as association lists -/

/-- Assignment `m[k] = v` on a dict: update in place if the key is present, else append. -/
def dUpsert {α : Type} (m : List (Nat × α)) (k : Nat) (v : α) : List (Nat × α) :=
  match m with
  | [] => [(k, v)]
  | (k₁, v₁) :: rest => if k₁ = k then (k, v) :: rest else (k₁, v₁) :: dUpsert rest k v

/-- Dict lookup (`m.get(k)` / `m[k]`). -/
def dFind {α : Type} (m : List (Nat × α)) (k : Nat) : Option α :=
  match m with
  | [] => none
  | (k₁, v₁) :: rest => if k₁ = k then some v₁ else dFind rest k

/-- Key list `m.keys()`. -/
def dKeys {α : Type} (m : List (Nat × α)) : List Nat := m.map Prod.fst

/-! ### `table_to_html` (source lines 84-99) -/

/-- The nested dict `rows : row ↦ (col ↦ text)`. -/
abbrev RowsDict := List (Nat × List (Nat × String))

/-- One iteration of `for cell in table.cells: rows[row][col] = text`
(lines 86-90), with `rows` a defaultdict of dicts: fetch the (possibly
fresh) inner dict of the cell's row, set its column entry to the cleaned
text, and store it back. -/
def insertCell (m : RowsDict) (cell : Cell) : RowsDict :=
  dUpsert m cell.row_number
    (dUpsert ((dFind m cell.row_number).getD []) cell.column_number (htmlCellText cell.text))

/-- The populated `rows` dict after the cell loop of `table_to_html`. -/
def buildRows (cells : List Cell) : RowsDict := cells.foldl insertCell []

/-- The inner dict for row `r` (`rows[r]`, empty when absent). -/
def innerOf (m : RowsDict) (r : Nat) : List (Nat × String) := (dFind m r).getD []

/-- Nested dict lookup: the HTML-side text recorded at `(r, c)`. -/
def hval (m : RowsDict) (r c : Nat) : Option String := dFind (innerOf m r) c

/-- The opening `<table ...>` tag emitted at line 92. -/
def tableHeader : String :=
  "<table border=\x271\x27 cellspacing=\x270\x27 cellpadding=\x275\x27 style=\x27border-collapse: collapse; margin-bottom: 20px;\x27>\n"

/-- The line `f"    <td>{...}</td>\n"` (line 96). -/
def tdLine (txt : String) : String := "    <td>" ++ txt ++ "</td>\n"

/-- Python `sorted(keys)` — ascending sort of the dict keys. -/
def sortedKeys {α : Type} (m : List (Nat × α)) : List Nat :=
  List.insertionSort (· ≤ ·) (dKeys m)

/-- The `<td>` lines of one row: iterate `sorted(rows[r].keys())`,
appending `rows[r].get(c, '')` cells (lines 95-96). -/
def rowHtml (inner : List (Nat × String)) : String :=
  (sortedKeys inner).foldl (fun s c => s ++ tdLine ((dFind inner c).getD "")) ""

/-- One `  <tr>\n ... </tr>\n` block (lines 94-97). -/
def trBlock (inner : List (Nat × String)) : String :=
  "  <tr>\n" ++ rowHtml inner ++ "  </tr>\n"

/-- Embeds `table_to_html(table)` (lines 84-99): build the nested dict, then emit
rows in ascending row-key order and, within a row, cells in ascending
column-key order. -/
def table_to_html (cells : List Cell) : String :=
  tableHeader ++
    (sortedKeys (buildRows cells)).foldl
      (fun s r => s ++ trBlock (innerOf (buildRows cells) r)) "" ++
    "</table>\n"

/-- Ascending list of populated row indices used for emission. -/
def sortedRowKeys (cells : List Cell) : List Nat := sortedKeys (buildRows cells)

/-- Ascending list of populated column indices of row `r`. -/
def sortedColKeys (cells : List Cell) (r : Nat) : List Nat :=
  sortedKeys (innerOf (buildRows cells) r)

/-- Occurrences of the pattern in a character list (overlapping counted),
used to count `<tr>` markers in the emitted HTML. -/
def countSub (pat : List Char) : List Char → Nat
  | [] => 0
  | a :: l => (if pat.isPrefixOf (a :: l) then 1 else 0) + countSub pat l

/-- Number of occurrences of the substring `<tr>` in a string. -/
def countTr (s : String) : Nat := countSub "<tr>".data s.data

/-! ### JSON grid reconstruction (source lines 175-186) -/

/-- The loop `while len(rows_json) <= r: rows_json.append([])` (line 178). -/
def padGrid (g : List (List String)) (r : Nat) : List (List String) :=
  g ++ List.replicate (r + 1 - g.length) []

/-- The loop `while len(rows_json[r]) <= c: rows_json[r].append("")` (line 179). -/
def padRow (row : List String) (c : Nat) : List String :=
  row ++ List.replicate (c + 1 - row.length) ""

/-- One iteration of the cell loop (lines 176-180): grow the grid to reach
row `r`, grow that row to reach column `c`, then assign the cleaned text at
`[r][c]`. -/
def writeCell (g : List (List String)) (cell : Cell) : List (List String) :=
  (padGrid g cell.row_number).set cell.row_number
    ((padRow (((padGrid g cell.row_number)[cell.row_number]?).getD []) cell.column_number).set
      cell.column_number (jsonCellText cell.text))

/-- The `rows_json` grid after the whole cell loop, before the empty-row
drop. -/
def rows_json (cells : List Cell) : List (List String) := cells.foldl writeCell []

/-- The serialized `rows` field: `[row for row in rows_json if any(row)]`
(line 184) — keep exactly the rows holding some non-empty string. -/
def table_rows (cells : List Cell) : List (List String) :=
  (rows_json cells).filter fun row => row.any fun s => s != ""

/-- Grid entry at `(r, c)`, defaulting to `""` out of bounds. -/
def gval (g : List (List String)) (r c : Nat) : String :=
  ((g[r]?).getD [])[c]?.getD ""

/-- Maximum of `cell.row_number + 1` over the cells — the number of rows the loop
allocates (0 for no cells). -/
def needRows (cells : List Cell) : Nat :=
  cells.foldr (fun cell n => max (cell.row_number + 1) n) 0

/-- Maximum of `cell.column_number + 1` over the cells of row `r` — the length the
loop gives row `r` (0 when the row receives no cell). -/
def needCols (cells : List Cell) (r : Nat) : Nat :=
  cells.foldr (fun cell n =>
    if cell.row_number = r then max (cell.column_number + 1) n else n) 0

/-- Global `max(cell.column_number + 1)` over all cells — the column count
the specification expects every row to have. -/
def needColsAll (cells : List Cell) : Nat :=
  cells.foldr (fun cell n => max (cell.column_number + 1) n) 0

/-- The maximum row index observed among the cells (0 when there are none):
the quantity the specification sizes the grid by. -/
def maxRowIdx (cells : List Cell) : Nat :=
  (cells.map fun cell => cell.row_number).foldr max 0

/-- Concatenation of a list of strings, used to state how the emitted HTML
decomposes into per-row blocks. -/
def sjoin : List String → String
  | [] => ""
  | s :: l => s ++ sjoin l

/-! ### `UniversalConverter.to_pdf` (source lines 32-79) -/

/-- External conversion actions that `to_pdf` can trigger; the model records
them so that pass-through can be stated as an empty action list. -/
inductive ConvEffect where
  | officeConvert (src outDir : String)
  | browserRender (src out : String)
  | imageEncode (src out : String)
  | textRender (src out : String)
deriving DecidableEq

/-- Conversion-layer failure: `raise ValueError(f"Unsupported file format:
{ext}")` (line 77), the spec's `UnsupportedFormatError`. -/
inductive ConvError where
  | unsupportedFormat (msg : String)
deriving DecidableEq

/-- Python `Path(p).name` for POSIX paths: final component, trailing separators
dropped. -/
def pyName (p : String) : String :=
  ⟨((p.data.reverse.dropWhile (· = '/')).takeWhile (· ≠ '/')).reverse⟩

/-- Index of the last occurrence of `ch` in `l` (Python `str.rfind`). -/
def rfindIdx (l : List Char) (ch : Char) : Option Nat :=
  match List.findIdx? (· == ch) l.reverse with
  | none => none
  | some j => some (l.length - 1 - j)

/-- Python `Path(p).suffix`: the extension of the final component — the part from
the last dot, provided that dot is neither the first nor the last character
of the name. -/
def pySuffix (p : String) : String :=
  let name := pyName p
  match rfindIdx name.data '.' with
  | some i => if 0 < i ∧ i + 1 < name.length then ⟨name.data.drop i⟩ else ""
  | none => ""

/-- Python `Path(p).stem`: the final component without its suffix. -/
def pyStem (p : String) : String :=
  let name := pyName p
  ⟨name.data.take (name.length - (pySuffix p).length)⟩

/-- Python `str.lower()` (ASCII, which covers every extension compared against). -/
def lowerStr (s : String) : String := ⟨s.data.map Char.toLower⟩

/-- The temporary working directory (line 24). -/
def TEMP_DIR : String := "temp_processing"

/-- The path `output_pdf = TEMP_DIR / f"{input_path.stem}.pdf"` (line 37): where every
non-pass-through conversion lands. -/
def outputPdfOf (input_path : String) : String :=
  TEMP_DIR ++ "/" ++ pyStem input_path ++ ".pdf"

/-- The extension `to_pdf` dispatches on: `input_path.suffix.lower()`. -/
def extOf (input_path : String) : String := lowerStr (pySuffix input_path)

/-- Embeds `UniversalConverter.to_pdf` (lines 34-79): dispatch on the lower-cased
extension; `.pdf` passes through untouched with no conversion action,
recognized formats invoke one external converter producing
`TEMP_DIR/stem.pdf`, anything else raises `Unsupported file format`. -/
def to_pdf (input_path : String) : Except ConvError (String × List ConvEffect) :=
  if extOf input_path = ".pdf" then
    .ok (input_path, [])
  else if extOf input_path = ".docx" ∨ extOf input_path = ".pptx" ∨ extOf input_path = ".xlsx" then
    .ok (outputPdfOf input_path, [.officeConvert input_path TEMP_DIR])
  else if extOf input_path = ".html" then
    .ok (outputPdfOf input_path, [.browserRender input_path (outputPdfOf input_path)])
  else if extOf input_path = ".png" ∨ extOf input_path = ".jpg" ∨ extOf input_path = ".jpeg" then
    .ok (outputPdfOf input_path, [.imageEncode input_path (outputPdfOf input_path)])
  else if extOf input_path = ".txt" then
    .ok (outputPdfOf input_path, [.textRender input_path (outputPdfOf input_path)])
  else
    .error (.unsupportedFormat ("Unsupported file format: " ++ extOf input_path))

/-- The extensions `to_pdf` recognizes. -/
def supportedExts : List String :=
  [".pdf", ".docx", ".pptx", ".xlsx", ".html", ".png", ".jpg", ".jpeg", ".txt"]

/-! ### Page structuring and document aggregation (source lines 104-195) -/

/-- A bounding box as exported by `bbox.get_export()`; its numeric content
is opaque to the pipeline logic. -/
structure BBox where
  ulx : Int
  uly : Int
  lrx : Int
  lry : Int
deriving DecidableEq

/-- One layout detection of the engine: category tag, optional text,
optional bounding box. -/
structure LayoutItem where
  category : String
  text : Option String
  bbox : Option BBox
deriving DecidableEq

/-- One detected table: its cells and optional bounding box. -/
structure EngineTable where
  cells : List Cell
  bbox : Option BBox
deriving DecidableEq

/-- One engine page: ordinal number, layout detections, detected tables. -/
structure EnginePage where
  page_number : Nat
  layouts : List LayoutItem
  tables : List EngineTable
deriving DecidableEq

/-- The query `page.get_layout_items(category_names=c)`: the page's detections of one
category, in the engine's native order. -/
def get_layout_items (p : EnginePage) (c : String) : List LayoutItem :=
  p.layouts.filter fun it => it.category == c

/-- The query `page.get_layouts(category_names=c)` — used for figures
(line 189); same interface over the page's detections. -/
def get_layouts (p : EnginePage) (c : String) : List LayoutItem :=
  p.layouts.filter fun it => it.category == c

/-- A `{text, bbox}` entry for texts / titles / lists. -/
structure TextEntry where
  text : String
  bbox : Option BBox
deriving DecidableEq

/-- A `{table_index, rows, bbox}` entry. -/
structure TableEntry where
  table_index : Nat
  rows : List (List String)
  bbox : Option BBox
deriving DecidableEq

/-- A `{figure_index, bbox}` entry. -/
structure FigureEntry where
  figure_index : Nat
  bbox : Option BBox
deriving DecidableEq

/-- The `page_entry` record (lines 137-144): all five category fields are
present as sequences. -/
structure PageEntry where
  page_number : Nat
  texts : List TextEntry
  tables : List TableEntry
  titles : List TextEntry
  lists : List TextEntry
  figures : List FigureEntry
deriving DecidableEq

/-- The entry `{"text": block.text.strip() if block.text else "", "bbox": ...}`
(lines 148-151 and the analogous title / list entries). -/
def textEntryOf (it : LayoutItem) : TextEntry :=
  { text := match it.text with
      | some s => if s = "" then "" else pyStrip s
      | none => ""
    bbox := it.bbox }

/-- One `{table_index, rows, bbox}` entry (lines 182-186). -/
def tableEntryOf (idx : Nat) (t : EngineTable) : TableEntry :=
  { table_index := idx, rows := table_rows t.cells, bbox := t.bbox }

/-- The per-page structuring of `main`'s result loop (lines 137-195):
partition detections by category and emit the normalized record. Tables are
enumerated from 1 inside the `if page.tables:` guard (lines 168-169);
figures are enumerated from 1 (line 189). -/
def processPage (p : EnginePage) : PageEntry :=
  { page_number := p.page_number
    texts := (get_layout_items p "text").map textEntryOf
    titles := (get_layout_items p "title").map textEntryOf
    lists := (get_layout_items p "list").map textEntryOf
    tables :=
      if p.tables.isEmpty then []
      else (List.enumFrom 1 p.tables).map fun it => tableEntryOf it.1 it.2
    figures :=
      (List.enumFrom 1 (get_layouts p "figure")).map fun it =>
        { figure_index := it.1, bbox := it.2.bbox } }

/-- The record `structured_data = {"pages": []}` accumulated over the page stream. -/
structure DocumentRecord where
  pages : List PageEntry
deriving DecidableEq

/-- The document aggregation: one `page_entry` appended per engine page, in
the engine's page order (lines 125 and 195). -/
def buildDocument (pages : List EnginePage) : DocumentRecord :=
  ⟨pages.map processPage⟩

/-- Control flow of `main` around conversion (lines 104-122): a conversion
failure returns before the analyzer is even created; otherwise the engine —
passed here as a parameter to make its (non-)invocation observable — is run
on the canonical PDF and its page stream is aggregated. -/
def runPipeline (engine : String → List EnginePage) (input : String) :
    Option DocumentRecord :=
  match to_pdf input with
  | .error _ => none
  | .ok (pdf, _) => some (buildDocument (engine pdf))

/-! ## Lemmas about the dictionary embedding -/

theorem dFind_dUpsert {α : Type} (m : List (Nat × α)) (k : Nat) (v : α) (k₂ : Nat) :
    dFind (dUpsert m k v) k₂ = if k₂ = k then some v else dFind m k₂ := by
  induction m with
  | nil =>
    by_cases h : k₂ = k
    · simp [dUpsert, dFind, h]
    · simp [dUpsert, dFind, h, Ne.symm h]
  | cons hd tl ih =>
    obtain ⟨k₁, v₁⟩ := hd
    by_cases h₁ : k₁ = k
    · subst h₁
      by_cases h₂ : k₂ = k₁
      · subst h₂; simp [dUpsert, dFind]
      · simp [dUpsert, dFind, h₂, Ne.symm h₂]
    · by_cases h₂ : k₁ = k₂
      · subst h₂
        simp [dUpsert, dFind, h₁, ih]
      · simp [dUpsert, dFind, h₁, h₂, ih]

theorem mem_dKeys_dUpsert {α : Type} (m : List (Nat × α)) (k : Nat) (v : α) (a : Nat) :
    a ∈ dKeys (dUpsert m k v) ↔ a = k ∨ a ∈ dKeys m := by
  induction m with
  | nil => simp [dUpsert, dKeys]
  | cons hd tl ih =>
    obtain ⟨k₁, v₁⟩ := hd
    by_cases h₁ : k₁ = k
    · subst h₁; simp [dUpsert, dKeys]
    · simp [dUpsert, dKeys, h₁] at ih ⊢
      tauto

theorem nodup_dKeys_dUpsert {α : Type} (m : List (Nat × α)) (k : Nat) (v : α)
    (h : (dKeys m).Nodup) : (dKeys (dUpsert m k v)).Nodup := by
  induction m with
  | nil => simp [dUpsert, dKeys]
  | cons hd tl ih =>
    obtain ⟨k₁, v₁⟩ := hd
    simp only [dKeys, List.map_cons, List.nodup_cons] at h
    obtain ⟨hnk, hnd⟩ := h
    by_cases h₁ : k₁ = k
    · subst h₁
      simpa only [dUpsert, eq_self_iff_true, if_true, dKeys, List.map_cons,
        List.nodup_cons] using ⟨hnk, hnd⟩
    · have htl := ih hnd
      simp only [dUpsert, if_neg h₁, dKeys, List.map_cons, List.nodup_cons]
      refine ⟨?_, htl⟩
      intro hmem
      rcases (mem_dKeys_dUpsert tl k v k₁).mp hmem with h | h
      · exact h₁ h
      · exact hnk h

/-! ## The surviving write at a coordinate -/

theorem lastWriteCell_nil (r c : Nat) : lastWriteCell [] r c = none := rfl

theorem getLast?_cons_eq {α : Type} (a : α) (l : List α) :
    (a :: l).getLast? = match l.getLast? with | some x => some x | none => some a := by
  cases l with
  | nil => rfl
  | cons b t =>
    rw [List.getLast?_cons_cons]
    cases hz : (b :: t).getLast? with
    | none => simp at hz
    | some z => rfl

theorem lastWriteCell_cons (cell : Cell) (cs : List Cell) (r c : Nat) :
    lastWriteCell (cell :: cs) r c =
      match lastWriteCell cs r c with
      | some x => some x
      | none =>
          if cell.row_number = r ∧ cell.column_number = c then some cell else none := by
  unfold lastWriteCell
  rw [List.filter_cons]
  by_cases h : cell.row_number = r ∧ cell.column_number = c
  · have hb : (cell.row_number == r && cell.column_number == c) = true := by
      simp [h.1, h.2]
    rw [if_pos hb, getLast?_cons_eq]
    cases hz : (cs.filter fun x => x.row_number == r && x.column_number == c).getLast? with
    | none => simp [h]
    | some z => rfl
  · have hb : (cell.row_number == r && cell.column_number == c) = false := by
      by_cases h₁ : cell.row_number = r
      · by_cases h₂ : cell.column_number = c
        · exact absurd ⟨h₁, h₂⟩ h
        · simp [h₂]
      · simp [h₁]
    rw [if_neg (by simp [hb])]
    cases hz : (cs.filter fun x => x.row_number == r && x.column_number == c).getLast? with
    | none => simp [h]
    | some z => rfl

theorem lastWriteCell_append_last (l₁ l₂ : List Cell) (cell : Cell)
    (h : ∀ x ∈ l₂, ¬(x.row_number = cell.row_number ∧ x.column_number = cell.column_number)) :
    lastWriteCell (l₁ ++ cell :: l₂) cell.row_number cell.column_number = some cell := by
  unfold lastWriteCell
  rw [List.filter_append, List.filter_cons]
  have hpred : (cell.row_number == cell.row_number && cell.column_number == cell.column_number)
      = true := by simp
  rw [if_pos hpred]
  have hl₂ : (l₂.filter fun x =>
      x.row_number == cell.row_number && x.column_number == cell.column_number) = [] := by
    rw [List.filter_eq_nil_iff]
    intro a ha hpa
    simp only [Bool.and_eq_true, beq_iff_eq] at hpa
    exact h a ha hpa
  rw [hl₂]
  exact List.getLast?_concat _

/-! ## Characterization of the `table_to_html` accumulator -/

theorem hval_insertCell (m : RowsDict) (cell : Cell) (r c : Nat) :
    hval (insertCell m cell) r c =
      if cell.row_number = r ∧ cell.column_number = c then some (htmlCellText cell.text)
      else hval m r c := by
  unfold hval insertCell innerOf
  rw [dFind_dUpsert]
  by_cases hr : r = cell.row_number
  · subst hr
    rw [if_pos rfl, Option.getD_some, dFind_dUpsert]
    by_cases hc : c = cell.column_number
    · subst hc
      rw [if_pos rfl, if_pos ⟨rfl, rfl⟩]
    · rw [if_neg hc, if_neg fun hh => hc hh.2.symm]
  · rw [if_neg hr, if_neg fun hh => hr hh.1.symm]

theorem hval_foldl (cells : List Cell) (acc : RowsDict) (r c : Nat) :
    hval (cells.foldl insertCell acc) r c =
      match lastWriteCell cells r c with
      | some x => some (htmlCellText x.text)
      | none => hval acc r c := by
  induction cells generalizing acc with
  | nil => rw [List.foldl_nil, lastWriteCell_nil]
  | cons cell cs ih =>
    rw [List.foldl_cons, ih, lastWriteCell_cons]
    cases hlw : lastWriteCell cs r c with
    | some x => rfl
    | none =>
      simp only
      rw [hval_insertCell]
      by_cases h : cell.row_number = r ∧ cell.column_number = c
      · rw [if_pos h, if_pos h]
      · rw [if_neg h, if_neg h]

theorem hval_buildRows (cells : List Cell) (r c : Nat) :
    hval (buildRows cells) r c =
      (lastWriteCell cells r c).map fun x => htmlCellText x.text := by
  rw [buildRows, hval_foldl]
  cases lastWriteCell cells r c with
  | none => rfl
  | some x => rfl

theorem innerOf_dUpsert (m : RowsDict) (k : Nat) (v : List (Nat × String)) (r : Nat) :
    innerOf (dUpsert m k v) r = if r = k then v else innerOf m r := by
  unfold innerOf
  rw [dFind_dUpsert]
  by_cases h : r = k
  · rw [if_pos h, if_pos h, Option.getD_some]
  · rw [if_neg h, if_neg h]

theorem innerOf_insertCell (m : RowsDict) (cell : Cell) (r : Nat) :
    innerOf (insertCell m cell) r =
      if r = cell.row_number
      then dUpsert (innerOf m cell.row_number) cell.column_number (htmlCellText cell.text)
      else innerOf m r := by
  rw [insertCell, innerOf_dUpsert]
  rfl

theorem mem_dKeys_foldl (cells : List Cell) (acc : RowsDict) (r : Nat) :
    r ∈ dKeys (cells.foldl insertCell acc) ↔
      (∃ cell ∈ cells, cell.row_number = r) ∨ r ∈ dKeys acc := by
  induction cells generalizing acc with
  | nil => simp
  | cons cell cs ih =>
    rw [List.foldl_cons, ih, insertCell, mem_dKeys_dUpsert]
    simp only [List.mem_cons]
    constructor
    · rintro (⟨x, hx, hxr⟩ | hacc | hacc)
      · exact Or.inl ⟨x, Or.inr hx, hxr⟩
      · exact Or.inl ⟨cell, Or.inl rfl, hacc.symm⟩
      · exact Or.inr hacc
    · rintro (⟨x, rfl | hx, hxr⟩ | hacc)
      · exact Or.inr (Or.inl hxr.symm)
      · exact Or.inl ⟨x, hx, hxr⟩
      · exact Or.inr (Or.inr hacc)

theorem nodup_dKeys_foldl (cells : List Cell) (acc : RowsDict)
    (h : (dKeys acc).Nodup) : (dKeys (cells.foldl insertCell acc)).Nodup := by
  induction cells generalizing acc with
  | nil => exact h
  | cons cell cs ih =>
    rw [List.foldl_cons, insertCell]
    exact ih _ (nodup_dKeys_dUpsert _ _ _ h)

theorem mem_dKeys_inner_foldl (cells : List Cell) (acc : RowsDict) (r c : Nat) :
    c ∈ dKeys (innerOf (cells.foldl insertCell acc) r) ↔
      (∃ cell ∈ cells, cell.row_number = r ∧ cell.column_number = c) ∨
        c ∈ dKeys (innerOf acc r) := by
  induction cells generalizing acc with
  | nil => simp
  | cons cell cs ih =>
    rw [List.foldl_cons, ih, innerOf_insertCell]
    by_cases h : r = cell.row_number
    · rw [if_pos h, mem_dKeys_dUpsert]
      simp only [List.mem_cons]
      constructor
      · rintro (⟨x, hx, hxr, hxc⟩ | hc | hmem)
        · exact Or.inl ⟨x, Or.inr hx, hxr, hxc⟩
        · exact Or.inl ⟨cell, Or.inl rfl, h.symm, hc.symm⟩
        · exact Or.inr (h ▸ hmem)
      · rintro (⟨x, rfl | hx, hxr, hxc⟩ | hmem)
        · exact Or.inr (Or.inl hxc.symm)
        · exact Or.inl ⟨x, hx, hxr, hxc⟩
        · exact Or.inr (Or.inr (h ▸ hmem))
    · rw [if_neg h]
      simp only [List.mem_cons]
      constructor
      · rintro (⟨x, hx, hxr, hxc⟩ | hmem)
        · exact Or.inl ⟨x, Or.inr hx, hxr, hxc⟩
        · exact Or.inr hmem
      · rintro (⟨x, rfl | hx, hxr, hxc⟩ | hmem)
        · exact absurd hxr.symm h
        · exact Or.inl ⟨x, hx, hxr, hxc⟩
        · exact Or.inr hmem

theorem nodup_inner_foldl (cells : List Cell) (acc : RowsDict)
    (h : ∀ r, (dKeys (innerOf acc r)).Nodup) (r : Nat) :
    (dKeys (innerOf (cells.foldl insertCell acc) r)).Nodup := by
  induction cells generalizing acc with
  | nil => exact h r
  | cons cell cs ih =>
    rw [List.foldl_cons]
    refine ih _ fun r₂ => ?_
    rw [innerOf_insertCell]
    by_cases h₂ : r₂ = cell.row_number
    · rw [if_pos h₂]
      exact nodup_dKeys_dUpsert _ _ _ (h _)
    · rw [if_neg h₂]
      exact h r₂

theorem mem_dKeys_buildRows (cells : List Cell) (r : Nat) :
    r ∈ dKeys (buildRows cells) ↔ ∃ cell ∈ cells, cell.row_number = r := by
  rw [buildRows, mem_dKeys_foldl]
  simp [dKeys]

theorem nodup_dKeys_buildRows (cells : List Cell) : (dKeys (buildRows cells)).Nodup :=
  nodup_dKeys_foldl cells [] (by simp [dKeys])

theorem mem_dKeys_inner_buildRows (cells : List Cell) (r c : Nat) :
    c ∈ dKeys (innerOf (buildRows cells) r) ↔
      ∃ cell ∈ cells, cell.row_number = r ∧ cell.column_number = c := by
  rw [buildRows, mem_dKeys_inner_foldl]
  simp [innerOf, dKeys, dFind]

theorem nodup_dKeys_inner_buildRows (cells : List Cell) (r : Nat) :
    (dKeys (innerOf (buildRows cells) r)).Nodup :=
  nodup_inner_foldl cells [] (fun _ => by simp [innerOf, dKeys, dFind]) r

/-! ## Sorted key emission -/

theorem sortedKeys_sorted {α : Type} (m : List (Nat × α)) :
    List.Sorted (· ≤ ·) (sortedKeys m) :=
  List.sorted_insertionSort _ _

theorem sortedKeys_perm {α : Type} (m : List (Nat × α)) :
    List.Perm (sortedKeys m) (dKeys m) :=
  List.perm_insertionSort _ _

theorem mem_sortedKeys {α : Type} (m : List (Nat × α)) (a : Nat) :
    a ∈ sortedKeys m ↔ a ∈ dKeys m :=
  (sortedKeys_perm m).mem_iff

theorem sortedKeys_nodup {α : Type} (m : List (Nat × α)) (h : (dKeys m).Nodup) :
    (sortedKeys m).Nodup :=
  ((sortedKeys_perm m).nodup_iff).mpr h

theorem sortedKeys_eq_of_same {α β : Type} (m₁ : List (Nat × α)) (m₂ : List (Nat × β))
    (h₁ : (dKeys m₁).Nodup) (h₂ : (dKeys m₂).Nodup)
    (h : ∀ a, a ∈ dKeys m₁ ↔ a ∈ dKeys m₂) : sortedKeys m₁ = sortedKeys m₂ := by
  refine List.eq_of_perm_of_sorted ?_ (sortedKeys_sorted m₁) (sortedKeys_sorted m₂)
  exact ((sortedKeys_perm m₁).trans
    ((List.perm_ext_iff_of_nodup h₁ h₂).mpr h)).trans (sortedKeys_perm m₂).symm

/-! ## String concatenation facts -/

theorem foldl_append_eq_sjoin (f : Nat → String) (l : List Nat) (s₀ : String) :
    l.foldl (fun s k => s ++ f k) s₀ = s₀ ++ sjoin (l.map f) := by
  induction l generalizing s₀ with
  | nil => simp [sjoin]
  | cons a t ih => simp [sjoin, ih, String.append_assoc]

theorem sjoin_append (l₁ l₂ : List String) : sjoin (l₁ ++ l₂) = sjoin l₁ ++ sjoin l₂ := by
  induction l₁ with
  | nil => simp [sjoin]
  | cons a t ih => simp [sjoin, ih, String.append_assoc]

theorem rowHtml_eq (inner : List (Nat × String)) :
    rowHtml inner = sjoin ((sortedKeys inner).map fun c => tdLine ((dFind inner c).getD "")) := by
  rw [rowHtml, foldl_append_eq_sjoin, String.empty_append]

theorem table_to_html_decomposed (cells : List Cell) :
    table_to_html cells =
      tableHeader ++
        sjoin ((sortedRowKeys cells).map fun r => trBlock (innerOf (buildRows cells) r)) ++
        "</table>\n" := by
  rw [table_to_html, foldl_append_eq_sjoin, String.empty_append, sortedRowKeys]

/-! ## Distinct coordinates: at most one write per position -/

theorem length_le_one_of_nodup_map_const (l : List Cell) (r c : Nat)
    (hnd : (l.map coordOf).Nodup) (hall : ∀ x ∈ l, coordOf x = (r, c)) :
    l.length ≤ 1 := by
  cases l with
  | nil => simp
  | cons a t =>
    cases t with
    | nil => simp
    | cons b t₂ =>
      exfalso
      rw [List.map_cons, List.map_cons, List.nodup_cons] at hnd
      refine hnd.1 ?_
      rw [hall a (List.mem_cons_self _ _),
        ← hall b (List.mem_cons_of_mem _ (List.mem_cons_self _ _))]
      exact List.mem_cons_self _ _

theorem length_filter_le_one_of_distinct (cells : List Cell) (hd : DistinctCoords cells)
    (r c : Nat) :
    (cells.filter fun x => x.row_number == r && x.column_number == c).length ≤ 1 := by
  refine length_le_one_of_nodup_map_const _ r c
    (List.Nodup.sublist (List.Sublist.map coordOf (List.filter_sublist cells)) hd) ?_
  intro x hx
  have := (List.mem_filter.mp hx).2
  simp only [Bool.and_eq_true, beq_iff_eq] at this
  simp [coordOf, this.1, this.2]

theorem filter_coord_eq_of_perm (cells₁ cells₂ : List Cell)
    (hp : List.Perm cells₁ cells₂) (hd : DistinctCoords cells₁) (r c : Nat) :
    (cells₁.filter fun x => x.row_number == r && x.column_number == c) =
      cells₂.filter fun x => x.row_number == r && x.column_number == c := by
  have hpf := hp.filter fun x => x.row_number == r && x.column_number == c
  have hlen := length_filter_le_one_of_distinct cells₁ hd r c
  cases hf : cells₁.filter fun x => x.row_number == r && x.column_number == c with
  | nil =>
    rw [hf] at hpf
    exact (List.perm_nil.mp hpf.symm).symm
  | cons a t =>
    cases t with
    | nil =>
      rw [hf] at hpf
      exact List.singleton_perm.mp hpf
    | cons b t₂ =>
      rw [hf] at hlen
      simp at hlen

theorem lastWriteCell_perm (cells₁ cells₂ : List Cell)
    (hp : List.Perm cells₁ cells₂) (hd : DistinctCoords cells₁) (r c : Nat) :
    lastWriteCell cells₁ r c = lastWriteCell cells₂ r c := by
  unfold lastWriteCell
  rw [filter_coord_eq_of_perm cells₁ cells₂ hp hd r c]

theorem lastWriteCell_of_distinct (cells : List Cell) (cell : Cell) (hmem : cell ∈ cells)
    (hd : DistinctCoords cells) :
    lastWriteCell cells cell.row_number cell.column_number = some cell := by
  have hm : cell ∈ cells.filter fun x =>
      x.row_number == cell.row_number && x.column_number == cell.column_number := by
    rw [List.mem_filter]
    exact ⟨hmem, by simp⟩
  have hlen := length_filter_le_one_of_distinct cells hd cell.row_number cell.column_number
  unfold lastWriteCell
  cases hf : cells.filter fun x =>
      x.row_number == cell.row_number && x.column_number == cell.column_number with
  | nil => rw [hf] at hm; simp at hm
  | cons a t =>
    cases t with
    | nil =>
      rw [hf] at hm
      have ha : cell = a := by simpa using hm
      rw [← ha]
      rfl
    | cons b t₂ =>
      rw [hf] at hlen
      simp at hlen

/-! ## Characterization of the JSON grid loop -/

theorem padGrid_getD (g : List (List String)) (r i : Nat) :
    ((padGrid g r)[i]?).getD [] = (g[i]?).getD [] := by
  unfold padGrid
  by_cases h : i < g.length
  · rw [List.getElem?_append_left h]
  · rw [List.getElem?_append_right (Nat.le_of_not_lt h),
      List.getElem?_eq_none (Nat.le_of_not_lt h), List.getElem?_replicate]
    by_cases h₂ : i - g.length < r + 1 - g.length <;> simp [h₂]

theorem padRow_getD (row : List String) (c₀ i : Nat) :
    ((padRow row c₀)[i]?).getD "" = (row[i]?).getD "" := by
  unfold padRow
  by_cases h : i < row.length
  · rw [List.getElem?_append_left h]
  · rw [List.getElem?_append_right (Nat.le_of_not_lt h),
      List.getElem?_eq_none (Nat.le_of_not_lt h), List.getElem?_replicate]
    by_cases h₂ : i - row.length < c₀ + 1 - row.length <;> simp [h₂]

theorem length_padGrid (g : List (List String)) (r : Nat) :
    (padGrid g r).length = max g.length (r + 1) := by
  simp only [padGrid, List.length_append, List.length_replicate]
  omega

theorem length_padRow (row : List String) (c : Nat) :
    (padRow row c).length = max row.length (c + 1) := by
  simp only [padRow, List.length_append, List.length_replicate]
  omega

theorem lt_length_padGrid (g : List (List String)) (r : Nat) :
    r < (padGrid g r).length := by
  rw [length_padGrid]; omega

theorem lt_length_padRow (row : List String) (c : Nat) :
    c < (padRow row c).length := by
  rw [length_padRow]; omega

theorem length_writeCell (g : List (List String)) (cell : Cell) :
    (writeCell g cell).length = max g.length (cell.row_number + 1) := by
  rw [writeCell, List.length_set, length_padGrid]

theorem rowlen_writeCell (g : List (List String)) (cell : Cell) (r : Nat) :
    (((writeCell g cell)[r]?).getD []).length =
      if r = cell.row_number
      then max ((g[r]?).getD []).length (cell.column_number + 1)
      else ((g[r]?).getD []).length := by
  rw [writeCell]
  by_cases h : r = cell.row_number
  · subst h
    rw [if_pos rfl, List.getElem?_set_self (lt_length_padGrid g cell.row_number),
      Option.getD_some, List.length_set, length_padRow, padGrid_getD]
  · rw [if_neg h, List.getElem?_set_ne (Ne.symm h), padGrid_getD]

theorem gval_writeCell (g : List (List String)) (cell : Cell) (r c : Nat) :
    gval (writeCell g cell) r c =
      if cell.row_number = r ∧ cell.column_number = c then jsonCellText cell.text
      else gval g r c := by
  unfold gval writeCell
  by_cases hr : r = cell.row_number
  · subst hr
    rw [List.getElem?_set_self (lt_length_padGrid g cell.row_number), Option.getD_some]
    by_cases hc : c = cell.column_number
    · subst hc
      rw [List.getElem?_set_self (lt_length_padRow _ cell.column_number), Option.getD_some,
        if_pos ⟨rfl, rfl⟩]
    · rw [List.getElem?_set_ne (Ne.symm hc), padRow_getD, padGrid_getD,
        if_neg fun hh => hc hh.2.symm]
  · rw [List.getElem?_set_ne (Ne.symm hr), padGrid_getD,
      if_neg fun hh => hr hh.1.symm]

theorem needRows_cons (cell : Cell) (cs : List Cell) :
    needRows (cell :: cs) = max (cell.row_number + 1) (needRows cs) := rfl

theorem needCols_cons (cell : Cell) (cs : List Cell) (r : Nat) :
    needCols (cell :: cs) r =
      if cell.row_number = r then max (cell.column_number + 1) (needCols cs r)
      else needCols cs r := rfl

theorem length_foldl_writeCell (cells : List Cell) (g : List (List String)) :
    (cells.foldl writeCell g).length = max g.length (needRows cells) := by
  induction cells generalizing g with
  | nil => simp [needRows]
  | cons cell cs ih =>
    rw [List.foldl_cons, ih, length_writeCell, needRows_cons]
    omega

theorem rowlen_foldl_writeCell (cells : List Cell) (g : List (List String)) (r : Nat) :
    (((cells.foldl writeCell g)[r]?).getD []).length =
      max ((g[r]?).getD []).length (needCols cells r) := by
  induction cells generalizing g with
  | nil => simp [needCols]
  | cons cell cs ih =>
    rw [List.foldl_cons, ih, rowlen_writeCell, needCols_cons]
    by_cases h : cell.row_number = r
    · rw [if_pos h, if_pos h.symm]
      omega
    · rw [if_neg h, if_neg fun hh => h hh.symm]

theorem gval_foldl_writeCell (cells : List Cell) (g : List (List String)) (r c : Nat) :
    gval (cells.foldl writeCell g) r c =
      match lastWriteCell cells r c with
      | some x => jsonCellText x.text
      | none => gval g r c := by
  induction cells generalizing g with
  | nil => rw [List.foldl_nil, lastWriteCell_nil]
  | cons cell cs ih =>
    rw [List.foldl_cons, ih, lastWriteCell_cons]
    cases hlw : lastWriteCell cs r c with
    | some x => rfl
    | none =>
      simp only
      rw [gval_writeCell]
      by_cases h : cell.row_number = r ∧ cell.column_number = c
      · rw [if_pos h, if_pos h]
      · rw [if_neg h, if_neg h]

theorem rows_json_length (cells : List Cell) :
    (rows_json cells).length = needRows cells := by
  rw [rows_json, length_foldl_writeCell]
  simp

theorem rows_json_rowlen (cells : List Cell) (r : Nat) :
    (((rows_json cells)[r]?).getD []).length = needCols cells r := by
  rw [rows_json, rowlen_foldl_writeCell]
  simp

theorem gval_rows_json (cells : List Cell) (r c : Nat) :
    gval (rows_json cells) r c =
      match lastWriteCell cells r c with
      | some x => jsonCellText x.text
      | none => "" := by
  rw [rows_json, gval_foldl_writeCell]
  cases lastWriteCell cells r c with
  | some x => rfl
  | none => simp [gval]

theorem needRows_eq_maxRowIdx (cells : List Cell) (hne : cells ≠ []) :
    needRows cells = maxRowIdx cells + 1 := by
  induction cells with
  | nil => exact absurd rfl hne
  | cons cell cs ih =>
    rw [needRows_cons]
    have hmx : maxRowIdx (cell :: cs) = max cell.row_number (maxRowIdx cs) := rfl
    cases cs with
    | nil => simp [maxRowIdx, needRows]
    | cons b t =>
      rw [hmx, ih (by simp)]
      omega

/-! ## Claim theorems -/

/-- C1 (counterexample): the reconstructed JSON grid is ragged, not
rectangular.  For cells `(0,0,"A")` and `(1,1,"B")` the maximum column
index is 1, so the claim demands every row to have length 2; the loop at
lines 176-180 produces `[["A"], ["", "B"]]`, whose first row has length 1. -/
theorem rows_json_uniform_width_cx :
    rows_json [⟨0, 0, "A"⟩, ⟨1, 1, "B"⟩] = [["A"], ["", "B"]] ∧
    needColsAll [⟨0, 0, "A"⟩, ⟨1, 1, "B"⟩] = 2 ∧
    ¬ ∀ row ∈ rows_json [⟨0, 0, "A"⟩, ⟨1, 1, "B"⟩],
        row.length = needColsAll [⟨0, 0, "A"⟩, ⟨1, 1, "B"⟩] :=
  ⟨by decide, by decide, by decide⟩

/-- C1 (amended): for every non-empty collection of cells, the grid built
before the empty-row drop has exactly `max(row index) + 1` rows; row `r`
has length `max(column index amongst row r's cells) + 1` (0 when no cell
targets row `r`) rather than the global maximum column width; and every
position not written by some cell holds the empty string. -/
theorem rows_json_shape (cells : List Cell) (hne : cells ≠ []) :
    (rows_json cells).length = maxRowIdx cells + 1 ∧
    (∀ r, (((rows_json cells)[r]?).getD []).length = needCols cells r) ∧
    (∀ r c, lastWriteCell cells r c = none → gval (rows_json cells) r c = "") := by
  refine ⟨?_, rows_json_rowlen cells, ?_⟩
  · rw [rows_json_length, needRows_eq_maxRowIdx cells hne]
  · intro r c h
    rw [gval_rows_json, h]

/-- Witness for `rows_json_shape` at the cells `(0,0,"A"), (1,1,"B")`. -/
theorem rows_json_shape_witness :
    (([⟨0, 0, "A"⟩, ⟨1, 1, "B"⟩] : List Cell) ≠ []) ∧
    ((rows_json [⟨0, 0, "A"⟩, ⟨1, 1, "B"⟩]).length =
        maxRowIdx [⟨0, 0, "A"⟩, ⟨1, 1, "B"⟩] + 1 ∧
      (∀ r, (((rows_json [⟨0, 0, "A"⟩, ⟨1, 1, "B"⟩])[r]?).getD []).length =
        needCols [⟨0, 0, "A"⟩, ⟨1, 1, "B"⟩] r) ∧
      (∀ r c, lastWriteCell [⟨0, 0, "A"⟩, ⟨1, 1, "B"⟩] r c = none →
        gval (rows_json [⟨0, 0, "A"⟩, ⟨1, 1, "B"⟩]) r c = "")) :=
  ⟨by decide, rows_json_shape _ (by decide)⟩

set_option maxRecDepth 40000 in
/-- C2 (counterexample): the HTML emission loops over the *populated* row
keys only.  For cells with row indices 0 and 2 the maximum observed row
index is 2 (so the claim demands `<tr>` elements for rows 0, 1 and 2), yet
the emitted HTML contains exactly two `<tr>` markers. -/
theorem html_tr_per_row_cx :
    needRows [⟨0, 0, "A"⟩, ⟨2, 0, "B"⟩] = 3 ∧
    countTr (table_to_html [⟨0, 0, "A"⟩, ⟨2, 0, "B"⟩]) = 2 := by
  constructor
  · decide
  · decide

/-- C2 (amended): `table_to_html` emits one `<tr>` block per *distinct
observed* row index (row indices with no cell get no `<tr>`), in strictly
ascending row-index order, and within each block one `<td>` per distinct
observed column index of that row, in strictly ascending column order. -/
theorem table_to_html_structure (cells : List Cell) :
    table_to_html cells =
      tableHeader ++
        sjoin ((sortedRowKeys cells).map fun r => trBlock (innerOf (buildRows cells) r)) ++
        "</table>\n" ∧
    List.Sorted (· < ·) (sortedRowKeys cells) ∧
    (∀ r, r ∈ sortedRowKeys cells ↔ ∃ cell ∈ cells, cell.row_number = r) ∧
    (∀ r, List.Sorted (· < ·) (sortedColKeys cells r) ∧
      ∀ c, c ∈ sortedColKeys cells r ↔
        ∃ cell ∈ cells, cell.row_number = r ∧ cell.column_number = c) ∧
    (∀ inner, trBlock inner =
      "  <tr>\n" ++
        sjoin ((sortedKeys inner).map fun c => tdLine ((dFind inner c).getD "")) ++
        "  </tr>\n") := by
  refine ⟨table_to_html_decomposed cells, ?_, ?_, fun r => ⟨?_, fun c => ?_⟩, fun inner => ?_⟩
  · exact List.Sorted.lt_of_le (sortedKeys_sorted _)
      (sortedKeys_nodup _ (nodup_dKeys_buildRows cells))
  · intro r
    rw [sortedRowKeys, mem_sortedKeys, mem_dKeys_buildRows]
  · exact List.Sorted.lt_of_le (sortedKeys_sorted _)
      (sortedKeys_nodup _ (nodup_dKeys_inner_buildRows cells r))
  · rw [sortedColKeys, mem_sortedKeys, mem_dKeys_inner_buildRows]
  · rw [trBlock, rowHtml_eq]

/-- C3: when several cells target the same coordinate, the cell occurring
last in enumeration order provides the text at that coordinate, in both
the JSON grid and the HTML accumulator (its cleaned text, via the
respective cleaning of each path). -/
theorem duplicate_coordinate_last_write_wins (l₁ l₂ : List Cell) (cell : Cell)
    (h : ∀ x ∈ l₂,
      ¬(x.row_number = cell.row_number ∧ x.column_number = cell.column_number)) :
    gval (rows_json (l₁ ++ cell :: l₂)) cell.row_number cell.column_number =
      jsonCellText cell.text ∧
    hval (buildRows (l₁ ++ cell :: l₂)) cell.row_number cell.column_number =
      some (htmlCellText cell.text) := by
  have hlw := lastWriteCell_append_last l₁ l₂ cell h
  constructor
  · rw [gval_rows_json, hlw]
  · rw [hval_buildRows, hlw]
    rfl

/-- Witness for `duplicate_coordinate_last_write_wins`: cells `(0,0,"X")`
then `(0,0,"Y")` yield `"Y"` at `(0,0)` in both renderings. -/
theorem duplicate_coordinate_last_write_wins_witness :
    (∀ x ∈ ([] : List Cell), ¬(x.row_number = 0 ∧ x.column_number = 0)) ∧
    (gval (rows_json ([⟨0, 0, "X"⟩] ++ ⟨0, 0, "Y"⟩ :: [])) 0 0 = jsonCellText "Y" ∧
      hval (buildRows ([⟨0, 0, "X"⟩] ++ ⟨0, 0, "Y"⟩ :: [])) 0 0 =
        some (htmlCellText "Y")) ∧
    jsonCellText "Y" = "Y" ∧ htmlCellText "Y" = "Y" :=
  ⟨by decide, duplicate_coordinate_last_write_wins [⟨0, 0, "X"⟩] [] ⟨0, 0, "Y"⟩ (by decide),
    by decide, by decide⟩

/-- C4: the serialized `rows` value keeps exactly the grid rows containing
some non-empty string — in particular no all-empty row survives the
`if any(row)` filter at line 184. -/
theorem table_rows_no_all_empty_row (cells : List Cell) (row : List String) :
    row ∈ table_rows cells ↔ row ∈ rows_json cells ∧ ∃ s ∈ row, s ≠ "" := by
  rw [table_rows, List.mem_filter]
  simp

/-- C5 (counterexample): the JSON path (line 180) only strips the cell
text — it does not replace newlines by spaces, unlike the HTML path
(line 89).  The cell `(0,0,"a\nb")` lands in the JSON grid as `"a\nb"`,
not as `"a b"` as the claim demands. -/
theorem json_text_keeps_newline_cx :
    rows_json [⟨0, 0, "a\nb"⟩] = [["a\nb"]] ∧
    htmlCellText "a\nb" = "a b" ∧ ("a\nb" : String) ≠ "a b" :=
  ⟨by decide, by decide, by decide⟩

/-- C5 (amended): the text stored for a cell is `text.replace("\n", " ").strip()`
in the HTML rendering but only `text.strip()` (interior newlines preserved)
in the JSON grid; stated here for the surviving cell of each coordinate
when coordinates are pairwise distinct. -/
theorem cell_text_cleaning (cells : List Cell) (cell : Cell) (hmem : cell ∈ cells)
    (hd : DistinctCoords cells) :
    gval (rows_json cells) cell.row_number cell.column_number = jsonCellText cell.text ∧
    hval (buildRows cells) cell.row_number cell.column_number =
      some (htmlCellText cell.text) := by
  have hlw := lastWriteCell_of_distinct cells cell hmem hd
  constructor
  · rw [gval_rows_json, hlw]
  · rw [hval_buildRows, hlw]
    rfl

/-- Witness for `cell_text_cleaning` at the cell `(0, 0, " a\nb ")`:
the JSON grid keeps `"a\nb"`, the HTML side records `"a b"`. -/
theorem cell_text_cleaning_witness :
    ((⟨0, 0, " a\nb "⟩ : Cell) ∈ ([⟨0, 0, " a\nb "⟩] : List Cell)) ∧
    DistinctCoords [⟨0, 0, " a\nb "⟩] ∧
    (gval (rows_json [⟨0, 0, " a\nb "⟩]) 0 0 = jsonCellText " a\nb " ∧
      hval (buildRows [⟨0, 0, " a\nb "⟩]) 0 0 = some (htmlCellText " a\nb ")) ∧
    jsonCellText " a\nb " = "a\nb" ∧ htmlCellText " a\nb " = "a b" :=
  ⟨by decide, by decide,
    cell_text_cleaning [⟨0, 0, " a\nb "⟩] ⟨0, 0, " a\nb "⟩ (by decide) (by decide),
    by decide, by decide⟩

/-- C6: an input whose (case-insensitive) extension is `.pdf` is returned
by `to_pdf` unchanged, with an empty conversion-action list: no converter
runs and no file is produced (lines 41-42). -/
theorem to_pdf_pdf_passthrough (p : String) (h : extOf p = ".pdf") :
    to_pdf p = .ok (p, []) := by
  rw [to_pdf, if_pos h]

/-- Witness for `to_pdf_pdf_passthrough` at `"input/Sample.PDF"`,
exercising the case-insensitive suffix handling. -/
theorem to_pdf_pdf_passthrough_witness :
    extOf "input/Sample.PDF" = ".pdf" ∧
    to_pdf "input/Sample.PDF" = .ok ("input/Sample.PDF", []) :=
  ⟨by decide, to_pdf_pdf_passthrough _ (by decide)⟩

/-- C7: an extension outside the recognized set makes `to_pdf` fail with
the `Unsupported file format` error naming the offending extension
(line 77), and the pipeline then returns before the layout-analysis
engine is invoked — the outcome is `none` for every possible engine. -/
theorem to_pdf_unsupported_aborts (p : String) (h : extOf p ∉ supportedExts) :
    to_pdf p = .error (.unsupportedFormat ("Unsupported file format: " ++ extOf p)) ∧
    ∀ engine, runPipeline engine p = none := by
  simp only [supportedExts, List.mem_cons, List.not_mem_nil, or_false, not_or] at h
  obtain ⟨h₁, h₂, h₃, h₄, h₅, h₆, h₇, h₈, h₉⟩ := h
  have hp : to_pdf p =
      .error (.unsupportedFormat ("Unsupported file format: " ++ extOf p)) := by
    rw [to_pdf, if_neg h₁, if_neg (by tauto), if_neg h₅, if_neg (by tauto), if_neg h₉]
  refine ⟨hp, fun engine => ?_⟩
  rw [runPipeline, hp]

/-- Witness for `to_pdf_unsupported_aborts` at `"file.xyz"`. -/
theorem to_pdf_unsupported_aborts_witness :
    extOf "file.xyz" ∉ supportedExts ∧
    (to_pdf "file.xyz" =
        .error (.unsupportedFormat ("Unsupported file format: " ++ extOf "file.xyz")) ∧
      ∀ engine, runPipeline engine "file.xyz" = none) :=
  ⟨by decide, to_pdf_unsupported_aborts "file.xyz" (by decide)⟩

/-- C8: every page entry carries all five category fields as (possibly
empty) sequences — a category with no detections yields `[]`, never an
absent field, which the record type makes structural — and the document
holds exactly one page entry per engine page, in engine order. -/
theorem document_structure (pages : List EnginePage) :
    (buildDocument pages).pages.length = pages.length ∧
    (∀ i : Nat, ((buildDocument pages).pages)[i]? = (pages[i]?).map processPage) ∧
    ∀ p : EnginePage,
      (get_layout_items p "text" = [] → (processPage p).texts = []) ∧
      (get_layout_items p "title" = [] → (processPage p).titles = []) ∧
      (get_layout_items p "list" = [] → (processPage p).lists = []) ∧
      (p.tables = [] → (processPage p).tables = []) ∧
      (get_layouts p "figure" = [] → (processPage p).figures = []) := by
  refine ⟨by simp [buildDocument], fun i => by simp [buildDocument], fun p => ?_⟩
  refine ⟨fun h => ?_, fun h => ?_, fun h => ?_, fun h => ?_, fun h => ?_⟩
  all_goals simp [processPage, h]

/-- Witness for `document_structure` at a one-page document with no
detections: the page count matches and a figure-free page yields
`figures = []`. -/
theorem document_structure_witness :
    (buildDocument [(⟨1, [], []⟩ : EnginePage)]).pages.length =
      [(⟨1, [], []⟩ : EnginePage)].length ∧
    get_layouts (⟨1, [], []⟩ : EnginePage) "figure" = [] ∧
    (processPage (⟨1, [], []⟩ : EnginePage)).figures = [] :=
  ⟨(document_structure _).1, by decide,
    ((document_structure [⟨1, [], []⟩]).2.2 ⟨1, [], []⟩).2.2.2.2 (by decide)⟩

/-- C9: on cell collections with pairwise distinct coordinates,
`table_to_html` is invariant under permutation of the cell enumeration —
the rendering only depends on the coordinate-to-text mapping, because rows
and columns are sorted before emission. -/
theorem table_to_html_perm_invariant (cells₁ cells₂ : List Cell)
    (hp : List.Perm cells₁ cells₂) (hd : DistinctCoords cells₁) :
    table_to_html cells₁ = table_to_html cells₂ := by
  have hvals : ∀ r c, hval (buildRows cells₁) r c = hval (buildRows cells₂) r c := by
    intro r c
    rw [hval_buildRows, hval_buildRows, lastWriteCell_perm cells₁ cells₂ hp hd r c]
  have hrowkeys : sortedRowKeys cells₁ = sortedRowKeys cells₂ := by
    refine sortedKeys_eq_of_same _ _ (nodup_dKeys_buildRows _) (nodup_dKeys_buildRows _)
      fun a => ?_
    rw [mem_dKeys_buildRows, mem_dKeys_buildRows]
    constructor
    · rintro ⟨cell, hm, hr⟩
      exact ⟨cell, hp.mem_iff.mp hm, hr⟩
    · rintro ⟨cell, hm, hr⟩
      exact ⟨cell, hp.mem_iff.mpr hm, hr⟩
  have hcolkeys : ∀ r,
      sortedKeys (innerOf (buildRows cells₁) r) = sortedKeys (innerOf (buildRows cells₂) r) := by
    intro r
    refine sortedKeys_eq_of_same _ _ (nodup_dKeys_inner_buildRows _ r)
      (nodup_dKeys_inner_buildRows _ r) fun a => ?_
    rw [mem_dKeys_inner_buildRows, mem_dKeys_inner_buildRows]
    constructor
    · rintro ⟨cell, hm, hrc⟩
      exact ⟨cell, hp.mem_iff.mp hm, hrc⟩
    · rintro ⟨cell, hm, hrc⟩
      exact ⟨cell, hp.mem_iff.mpr hm, hrc⟩
  have htd : ∀ r, (fun c => tdLine ((dFind (innerOf (buildRows cells₁) r) c).getD "")) =
      fun c => tdLine ((dFind (innerOf (buildRows cells₂) r) c).getD "") := by
    intro r
    funext c
    show tdLine ((hval (buildRows cells₁) r c).getD "") =
      tdLine ((hval (buildRows cells₂) r c).getD "")
    rw [hvals]
  have htr : (fun r => trBlock (innerOf (buildRows cells₁) r)) =
      fun r => trBlock (innerOf (buildRows cells₂) r) := by
    funext r
    rw [trBlock, trBlock, rowHtml_eq, rowHtml_eq, hcolkeys r, htd r]
  rw [table_to_html_decomposed, table_to_html_decomposed, hrowkeys, htr]

/-- Witness for `table_to_html_perm_invariant`: swapping the enumeration
of `(0,0,"A")` and `(1,1,"B")` leaves the rendering unchanged. -/
theorem table_to_html_perm_invariant_witness :
    List.Perm ([⟨0, 0, "A"⟩, ⟨1, 1, "B"⟩] : List Cell) [⟨1, 1, "B"⟩, ⟨0, 0, "A"⟩] ∧
    DistinctCoords [⟨0, 0, "A"⟩, ⟨1, 1, "B"⟩] ∧
    table_to_html [⟨0, 0, "A"⟩, ⟨1, 1, "B"⟩] = table_to_html [⟨1, 1, "B"⟩, ⟨0, 0, "A"⟩] :=
  ⟨by decide, by decide, table_to_html_perm_invariant _ _ (by decide) (by decide)⟩

/-- C10: the winning cell of a coordinate has its cleaned text spliced
into the emitted HTML exactly as the `<td>` f-string of line 96 — no HTML
escaping is applied, so `<`, `>` and `&` in cell text appear verbatim
inside the fragment. -/
theorem td_emitted_verbatim (cells : List Cell) (cell : Cell) (r c : Nat)
    (hlw : lastWriteCell cells r c = some cell) :
    ∃ s₁ s₂, table_to_html cells = s₁ ++ tdLine (htmlCellText cell.text) ++ s₂ := by
  have hcellm : cell ∈ cells.filter fun x =>
      x.row_number == r && x.column_number == c :=
    List.mem_of_getLast?_eq_some hlw
  have hcoord := (List.mem_filter.mp hcellm).2
  simp only [Bool.and_eq_true, beq_iff_eq] at hcoord
  have hmem : cell ∈ cells := (List.mem_filter.mp hcellm).1
  have hrk : r ∈ sortedRowKeys cells := by
    rw [sortedRowKeys, mem_sortedKeys, mem_dKeys_buildRows]
    exact ⟨cell, hmem, hcoord.1⟩
  have hck : c ∈ sortedKeys (innerOf (buildRows cells) r) := by
    rw [mem_sortedKeys, mem_dKeys_inner_buildRows]
    exact ⟨cell, hmem, hcoord.1, hcoord.2⟩
  obtain ⟨k₁, k₂, hk⟩ := List.append_of_mem hrk
  obtain ⟨m₁, m₂, hm⟩ := List.append_of_mem hck
  have hv : (dFind (innerOf (buildRows cells) r) c).getD "" = htmlCellText cell.text := by
    show (hval (buildRows cells) r c).getD "" = htmlCellText cell.text
    rw [hval_buildRows, hlw]
    rfl
  refine ⟨tableHeader ++
      sjoin (k₁.map fun r₂ => trBlock (innerOf (buildRows cells) r₂)) ++
      "  <tr>\n" ++
      sjoin (m₁.map fun c₂ => tdLine ((dFind (innerOf (buildRows cells) r) c₂).getD "")),
    sjoin (m₂.map fun c₂ => tdLine ((dFind (innerOf (buildRows cells) r) c₂).getD "")) ++
      "  </tr>\n" ++
      sjoin (k₂.map fun r₂ => trBlock (innerOf (buildRows cells) r₂)) ++
      "</table>\n", ?_⟩
  rw [table_to_html_decomposed, hk, List.map_append, List.map_cons, sjoin_append]
  rw [show sjoin ((trBlock (innerOf (buildRows cells) r)) ::
      (k₂.map fun r₂ => trBlock (innerOf (buildRows cells) r₂))) =
    trBlock (innerOf (buildRows cells) r) ++
      sjoin (k₂.map fun r₂ => trBlock (innerOf (buildRows cells) r₂)) from rfl]
  rw [trBlock, rowHtml_eq, hm, List.map_append, List.map_cons, sjoin_append]
  rw [show sjoin ((tdLine ((dFind (innerOf (buildRows cells) r) c).getD "")) ::
      (m₂.map fun c₂ => tdLine ((dFind (innerOf (buildRows cells) r) c₂).getD ""))) =
    tdLine ((dFind (innerOf (buildRows cells) r) c).getD "") ++
      sjoin (m₂.map fun c₂ => tdLine ((dFind (innerOf (buildRows cells) r) c₂).getD ""))
    from rfl]
  rw [hv]
  simp only [String.append_assoc]

/-- Witness for `td_emitted_verbatim`: a cell text holding `<`, `&` and `>`
appears unescaped between `<td>` and `</td>` in the rendering. -/
theorem td_emitted_verbatim_witness :
    lastWriteCell [⟨0, 0, "a<b&c>"⟩] 0 0 = some ⟨0, 0, "a<b&c>"⟩ ∧
    (∃ s₁ s₂, table_to_html [⟨0, 0, "a<b&c>"⟩] =
      s₁ ++ tdLine (htmlCellText "a<b&c>") ++ s₂) ∧
    htmlCellText "a<b&c>" = "a<b&c>" :=
  ⟨by decide, td_emitted_verbatim [⟨0, 0, "a<b&c>"⟩] ⟨0, 0, "a<b&c>"⟩ 0 0 (by decide),
    by decide⟩

end DeepDecToc
